import Mathlib

/-!
Verification development for the `circular` repository (graph of lightning
channels with liquidity estimates, reverse-Dijkstra routing, rebalance engine).

The Go sources embedded here are `graph.go` (package `graph`: `Graph`,
`AddChannel`, `GetRoute`, `dijkstra`, `Refresh`, `getLiquidityAfterAging`) and
`rebalance.go` (package `rebalance`: `getRoute`, `tryRoute`).  Types used by
those files but defined elsewhere in the repository (`Channel`, `RouteHop`,
`Route`, the `util` helpers, the priority queue) are modelled from the
specification and marked as such in their doc comments.

Embedding conventions:
* Node identifiers and short-channel ids are opaque strings in Go; they are
  embedded as `Nat` tokens.
* Go maps are embedded as association lists with first-match lookup
  (`alookup`); inserting is consing in front, which shadows older entries
  exactly like a map overwrite.  Reading a missing key of a `map[string]int`
  yields Go's zero value `0`; those read sites use `distGo`, which applies
  `.getD 0`.  Reading a missing key of a map of pointers yields `nil`, and a
  subsequent dereference panics; such sites return `none` and the panic is a
  distinguished outcome of the embedded function.
* `uint64` arithmetic carries an explicit `% U64`.  Go computes the fee table
  in `int`; a fee cast from `uint64` to `int` is value-preserving below
  `2^63`.  The table is embedded over `Nat`, which is faithful only while
  every fee the search probes keeps the `int64` arithmetic non-negative and
  overflow-free; the amount-monotonicity theorem therefore carries an
  explicit fee-bound hypothesis (`feesBoundedB`), and the concrete runs of
  the other claims stay far below that bound.
* Go's `range` over a map iterates in unspecified order, and `container/heap`
  breaks priority ties arbitrarily.  The embedding fixes the insertion order
  of the association lists and lets `popMin` return the first item of minimal
  priority.  Every concrete run used below is free of priority ties and its
  relaxations commute, so the runs do not depend on this choice; the
  universally quantified theorems are proved for this fixed schedule.
-/

namespace Circular

def U64 : Nat := 2 ^ 64

instance {ε α : Type} [DecidableEq ε] [DecidableEq α] :
    DecidableEq (Except ε α) := fun a b =>
  match a, b with
  | .error e, .error e' =>
    if h : e = e' then isTrue (by rw [h])
    else isFalse (fun hh => h (Except.error.inj hh))
  | .error _, .ok _ => isFalse (fun hh => Except.noConfusion hh)
  | .ok _, .error _ => isFalse (fun hh => Except.noConfusion hh)
  | .ok x, .ok y =>
    if h : x = y then isTrue (by rw [h])
    else isFalse (fun hh => h (Except.ok.inj hh))

/-- First-match lookup in an association list (a Go map read that
distinguishes a missing key). -/
def alookup {α β : Type} [DecidableEq α] (k : α) : List (α × β) → Option β
  | [] => none
  | (k', v) :: t => if k' = k then some v else alookup k t

/-- Modelled from the spec: `Channel` (one directed edge) is not under `src/`;
fields follow §3 of the spec and the listing-record fields of §6 — endpoints,
capacity in satoshi (`Satoshis`, scaled ×1000 internally), base and
proportional fee, minimum/maximum forwardable amount, time-lock `Delay`, and
the current `Liquidity` estimate in millisatoshi. -/
structure Channel where
  ShortChannelId : Nat
  Source : Nat
  Destination : Nat
  Satoshis : Nat
  BaseFeeMillisatoshi : Nat
  FeePerMillionth : Nat
  MinHtlc : Nat
  MaxHtlc : Nat
  Delay : Nat
  Liquidity : Nat
deriving DecidableEq

/-- Modelled from the spec (§4.1): `canUse(amount)` is true iff `amount` lies
within `[minAmount, maxAmount]` and `amount ≤ liquidity`.  The Go method
`Channel.CanUse` is not under `src/`. -/
def Channel.CanUse (c : Channel) (amount : Nat) : Bool :=
  decide (c.MinHtlc ≤ amount ∧ amount ≤ c.MaxHtlc ∧ amount ≤ c.Liquidity)

/-- Modelled from the spec (§4.1, glossary): `computeFee(amount)` is
`baseFee + floor(proportionalRate · amount)` with the proportional rate in
parts per million; the Go method `Channel.ComputeFee` is not under `src/`.
The result is a `uint64`. -/
def Channel.ComputeFee (c : Channel) (amount : Nat) : Nat :=
  (c.BaseFeeMillisatoshi + amount * c.FeePerMillionth / 1000000) % U64

/-- Modelled from the spec: `util.GetDirection` is not under `src/`; the spec
(§3) only requires a direction tag such that the two directions of one
physical channel get the two distinct tags.  The tag is embedded as the
boolean `from < to`. -/
def GetDirection (fromN toN : Nat) : Bool :=
  decide (fromN < toN)

/-- Composite channel identifier: in Go the string `scid + "/" + direction`. -/
abbrev ChanKey := Nat × Bool

def chanKey (scid fromN toN : Nat) : ChanKey :=
  (scid, GetDirection fromN toN)

/-- A record of the external channel listing (`glightning.Channel`), modelled
from the spec's §6 listing interface; not under `src/`. -/
structure ListChannel where
  ShortChannelId : Nat
  Source : Nat
  Destination : Nat
  Satoshis : Nat
  BaseFeeMillisatoshi : Nat
  FeePerMillionth : Nat
  MinHtlc : Nat
  MaxHtlc : Nat
  Delay : Nat
deriving DecidableEq

/-- Modelled from the spec (§3 lifecycle, §4.2): `NewChannel(c, liquidity)`
builds the graph's directed channel from a listing record and an initial
liquidity estimate; not under `src/`. -/
def NewChannel (c : ListChannel) (liquidity : Nat) : Channel :=
  { ShortChannelId := c.ShortChannelId
    Source := c.Source
    Destination := c.Destination
    Satoshis := c.Satoshis
    BaseFeeMillisatoshi := c.BaseFeeMillisatoshi
    FeePerMillionth := c.FeePerMillionth
    MinHtlc := c.MinHtlc
    MaxHtlc := c.MaxHtlc
    Delay := c.Delay
    Liquidity := liquidity }

/-- The lightning-network graph (`graph.Graph`): `Channels` keyed by
scid/direction, plus the derived `Outbound`/`Inbound` adjacency indices
(node ↦ peer ↦ list of scids). -/
structure Graph where
  Channels : List (ChanKey × Channel)
  Outbound : List (Nat × List (Nat × List Nat))
  Inbound : List (Nat × List (Nat × List Nat))

/-- Update the value at `k` (replacing in place), or append `(k, f d)` when
`k` is absent — the effect of Go's `allocate` followed by an indexed write. -/
def upsert {α β : Type} [DecidableEq α] (k : α) (f : β → β) (d : β) :
    List (α × β) → List (α × β)
  | [] => [(k, f d)]
  | (k', v) :: t => if k' = k then (k, f v) :: t else (k', v) :: upsert k f d t

/-- Embeds `Graph.AddChannel` (graph.go): append the scid to
`Outbound[Source][Destination]` and `Inbound[Destination][Source]`, allocating
the nested maps lazily.  (It does not touch `Channels`; `Refresh` writes that
entry itself.) -/
def Graph.AddChannel (g : Graph) (c : Channel) : Graph :=
  { g with
    Outbound := upsert c.Source
      (fun m => upsert c.Destination (fun e => e ++ [c.ShortChannelId]) [] m)
      [] g.Outbound
    Inbound := upsert c.Destination
      (fun m => upsert c.Source (fun e => e ++ [c.ShortChannelId]) [] m)
      [] g.Inbound }

/-- Average aging amount in msat (graph.go constant, 10k sats). -/
def AVERAGE_AGING_AMOUNT : Nat := 10000000

/-- Aging variance in msat (graph.go constant, 5k sats). -/
def AGING_VARIANCE : Nat := 5000000

/-- Embeds `Graph.getLiquidityAfterAging` (graph.go): `max(liquidity + aging,
perfectBalance)` where `aging` is drawn by `util.RandRange` from
`[AVERAGE_AGING_AMOUNT - AGING_VARIANCE, AVERAGE_AGING_AMOUNT +
AGING_VARIANCE]`.  The random draw is passed in explicitly as `aging`
(`util.RandRange` and `util.Max` are not under `src/`; modelled from the
spec's §4.2 aging description).  The addition is `uint64`.  Returns `none`
when the channel id is absent (Go would dereference `nil`; the caller only
invokes this with a present id). -/
def Graph.getLiquidityAfterAging (g : Graph) (channelId : ChanKey)
    (perfectBalance aging : Nat) : Option Nat :=
  (alookup channelId g.Channels).map
    (fun ch => Nat.max ((ch.Liquidity + aging) % U64) perfectBalance)

/-- Capacity of a listed channel in millisatoshi (`c.Satoshis * 1000`,
a `uint64` product). -/
def capMsat (c : ListChannel) : Nat := c.Satoshis * 1000 % U64

/-- The `perfectBalance` value of `Graph.Refresh` (graph.go):
`uint64(0.5 * float64(c.Satoshis*1000))`.  For capacities below `2^53` msat
the float round trip is exact and this equals half the capacity rounded
down; at and above `2^53` msat the `float64` conversion rounds to 53
significant bits (ties to even) before halving, so Go departs from exact
halving — e.g. at `capMsat = 2^56 + 8` Go creates `2^55` while exact
halving gives `2^55 + 4`.  This embedding uses the exact value, and every
theorem about the creation liquidity carries the explicit hypothesis
`capMsat c < 2^53` confining it to the regime where the two coincide. -/
def perfectBalance (c : ListChannel) : Nat := capMsat c / 2

/-- One iteration of the loop body of `Graph.Refresh` (graph.go) for a single
listing record `c` with aging draw `aging`.  If the channel id is new, create
it with liquidity `perfectBalance` and index it; otherwise age its liquidity
and write `capacity − liquidity` (a `uint64` subtraction, which wraps) into
the opposite direction's channel.  Returns `none` when the opposite
direction is absent from `Channels`: Go reads `nil` from the map and panics
on the `oppositeChannel.Liquidity` store. -/
def refreshOne (g : Graph) (c : ListChannel) (aging : Nat) : Option Graph :=
  let channelId := chanKey c.ShortChannelId c.Source c.Destination
  match alookup channelId g.Channels with
  | none =>
      let channel := NewChannel c (perfectBalance c)
      let g' := g.AddChannel channel
      some { g' with Channels := (channelId, channel) :: g'.Channels }
  | some existing =>
      let liquidity :=
        Nat.max ((existing.Liquidity + aging) % U64) (perfectBalance c)
      let oppositeChannelId := chanKey c.ShortChannelId c.Destination c.Source
      match alookup oppositeChannelId g.Channels with
      | none => none
      | some oppositeChannel =>
          let opposite' :=
            { oppositeChannel with
              Liquidity := (capMsat c + U64 - liquidity) % U64 }
          let channel := NewChannel c liquidity
          some { g with
                 Channels := (channelId, channel) ::
                   (oppositeChannelId, opposite') :: g.Channels }

/-- Embeds `Graph.Refresh` (graph.go): fold the loop body over the listing; each
record is paired with its aging draw.  `none` propagates a panic of an
iteration. -/
def Graph.Refresh (g : Graph) (channelList : List (ListChannel × Nat)) :
    Option Graph :=
  channelList.foldl
    (fun acc (p : ListChannel × Nat) =>
      match acc with
      | none => none
      | some g' => refreshOne g' p.1 p.2)
    (some g)

/-- One hop of a route (`graph.RouteHop`, not under `src/`): the channel used,
the amount it forwards (msat) and the delay accumulated from this hop onward;
modelled from the spec's §3 Route description and the literal
`RouteHop{channel, amount, delay}` in graph.go. -/
structure RouteHop where
  Channel : Channel
  Amount : Nat
  Delay : Nat
deriving DecidableEq

/-- A priority-queue payload (`graph.PqItem`). -/
structure PqItem where
  Node : Nat
  Amount : Nat
  Delay : Nat
deriving DecidableEq

/-- A priority-queue entry (`graph.Item`): payload plus priority (the
tentative fee). -/
structure Item where
  value : PqItem
  priority : Nat
deriving DecidableEq

/-- Pop an item of minimal priority (Go's `container/heap` pop; ties are
broken arbitrarily by the heap there — this embedding keeps the
first-pushed one). -/
def popMin : List Item → Option (Item × List Item)
  | [] => none
  | x :: xs =>
    match popMin xs with
    | none => some (x, [])
    | some (m, rest) =>
      if x.priority ≤ m.priority then some (x, xs) else some (m, x :: rest)

/-- Go reads of the `distance` table (`map[string]int`): a missing key is the
zero value `0`. -/
def distGo (d : List (Nat × Nat)) (u : Nat) : Nat :=
  (alookup u d).getD 0

/-- The constant `maxDistance = 1 << 31` (graph.go). -/
def maxDistance : Nat := 2 ^ 31

/-- The mutable state of `Graph.dijkstra`'s main loop. -/
structure DState where
  distance : List (Nat × Nat)
  hop : List (Nat × RouteHop)
  pq : List Item
deriving DecidableEq

/-- How an embedded run ends abnormally.  `panicked` is a Go nil-pointer
dereference (a missing `Channels` entry used as a channel, or a missing
`hop` entry walked during reconstruction); `NoRouteFound` is the
`errors.New("no route found")` return; `fuelOut` is an artifact of the
embedding — the Go loop has no fuel bound. -/
inductive DijkstraErr where
  | NoRouteFound
  | panicked
  | fuelOut
deriving DecidableEq

/-- Reads `g.Inbound[u]` (a missing node reads as the empty map). -/
def inboundOf (g : Graph) (u : Nat) : List (Nat × List Nat) :=
  (alookup u g.Inbound).getD []

/-- The innermost body of the relaxation (graph.go lines 113–134) for one
scid of the edge `v → u`: look the channel up by scid/direction (a missing
entry is Go `nil` and the `CanUse` call panics → `none`), test `CanUse`,
and on a strict improvement of `distance[v]` record the winning hop and push
the new frontier item.  Go casts the `uint64` fee to `int`
(`channelFee := int(channel.ComputeFee(amount))`) and adds it to the `int`
distance; this `Nat` embedding coincides with that exactly while the fee
stays below `2^62` (cast value-preserving, distances in `[0, maxDistance]`,
so the `int64` sum cannot go negative or overflow).  A fee at or above
`2^63` turns negative in Go and can drive relaxations through wrapping
`int64` distances, which this embedding does not model; the theorem that
depends on the fee arithmetic (C8) carries the explicit `feesBoundedB`
hypothesis restricting it to the faithful regime. -/
def relaxEdge (g : Graph) (u amount delay v scid : Nat) (st : DState) :
    Option DState :=
  match alookup (scid, GetDirection v u) g.Channels with
  | none => none
  | some channel =>
    if channel.CanUse amount then
      if distGo st.distance u + channel.ComputeFee amount <
          distGo st.distance v then
        some { distance :=
                 (v, distGo st.distance u + channel.ComputeFee amount) ::
                   st.distance
               hop := (v, ⟨channel, amount, delay⟩) :: st.hop
               pq := st.pq ++
                 [⟨⟨v, (amount + channel.ComputeFee amount) % U64,
                     delay + channel.Delay⟩,
                   distGo st.distance u + channel.ComputeFee amount⟩] }
      else some st
    else some st

/-- The `for _, scid := range edge` loop of the relaxation. -/
def relaxScids (g : Graph) (u amount delay v : Nat) :
    List Nat → DState → Option DState
  | [], st => some st
  | scid :: rest, st =>
    match relaxEdge g u amount delay v scid st with
    | none => none
    | some st' => relaxScids g u amount delay v rest st'

/-- The `for v, edge := range g.Inbound[u]` loop: skip excluded predecessors,
relax every parallel channel of the others. -/
def expand (g : Graph) (excl : List Nat) (u amount delay : Nat) :
    List (Nat × List Nat) → DState → Option DState
  | [], st => some st
  | (v, scids) :: rest, st =>
    if v ∈ excl then expand g excl u amount delay rest st
    else
      match relaxScids g u amount delay v scids st with
      | none => none
      | some st' => expand g excl u amount delay rest st'

/-- The main loop of `Graph.dijkstra` (graph.go lines 97–136): pop the
cheapest frontier item; stop when it is `src`; drop it when stale
(`fee > distance[u]`); otherwise expand its inbound edges.  `fuel` bounds
the iteration count (embedding artifact). -/
def dLoop (g : Graph) (src : Nat) (excl : List Nat) :
    Nat → DState → Except DijkstraErr DState
  | 0, _ => .error .fuelOut
  | fuel + 1, st =>
    match popMin st.pq with
    | none => .ok st
    | some (it, rest) =>
      if it.value.Node = src then .ok { st with pq := rest }
      else if distGo st.distance it.value.Node < it.priority then
        dLoop g src excl fuel { st with pq := rest }
      else
        match expand g excl it.value.Node it.value.Amount it.value.Delay
            (inboundOf g it.value.Node) { st with pq := rest } with
        | none => .error .panicked
        | some st' => dLoop g src excl fuel st'

/-- The initial state (graph.go lines 80–95): every node of the inbound index
at `maxDistance`, the destination overwritten to `0`, and the destination
seeded into the queue carrying `amount` at priority `0`. -/
def initState (g : Graph) (dst amount : Nat) : DState :=
  { distance := (dst, 0) :: g.Inbound.map (fun p => (p.1, maxDistance))
    hop := []
    pq := [⟨⟨dst, amount, 0⟩, 0⟩] }

/-- Path reconstruction (graph.go lines 142–145):
`for u := src; u != dst; u = hop[u].Channel.Destination`.  A missing `hop`
entry is the zero `RouteHop`, whose nil channel panics on the `.Destination`
read → `panicked`; a cyclic walk never terminates in Go → `fuelOut`. -/
def rebuild (hopm : List (Nat × RouteHop)) (dst : Nat) :
    Nat → Nat → Except DijkstraErr (List RouteHop)
  | 0, _ => .error .fuelOut
  | fuel + 1, u =>
    if u = dst then .ok []
    else
      match alookup u hopm with
      | none => .error .panicked
      | some h =>
        match rebuild hopm dst fuel h.Channel.Destination with
        | .error e => .error e
        | .ok hops => .ok (h :: hops)

/-- Embeds `Graph.dijkstra` (graph.go lines 73–147): run the main loop from the
destination, fail with `NoRouteFound` when `distance[src]` still reads
`maxDistance`, otherwise rebuild the hop list from `src` forward. -/
def Graph.dijkstra (g : Graph) (src dst amount : Nat) (excl : List Nat)
    (fuel : Nat) : Except DijkstraErr (List RouteHop) :=
  match dLoop g src excl fuel (initState g dst amount) with
  | .error e => .error e
  | .ok st =>
    if distGo st.distance src = maxDistance then .error .NoRouteFound
    else rebuild st.hop dst fuel src

/-- Modelled from the spec (§3, §4.4): `Route` (not under `src/`) is the
ordered hop sequence with its aggregates.  `NewRoute(src, dst, amount, hops)`
keeps the endpoints, the delivered amount and the hops. -/
structure Route where
  Source : Nat
  Destination : Nat
  Amount : Nat
  Hops : List RouteHop
deriving DecidableEq

/-- Modelled from the spec (§4.4): the total fee across all hops — each hop
pays its channel's fee on the amount it forwards. -/
def Route.Fee (r : Route) : Nat :=
  r.Hops.foldl (fun acc h => acc + h.Channel.ComputeFee h.Amount) 0

/-- Modelled from the spec (§4.4): `feePPM()` is the total fee as
parts-per-million of the forwarded amount, rounded down. -/
def Route.FeePPM (r : Route) : Nat :=
  r.Fee * 1000000 / r.Amount

/-- Modelled from the spec (§4.4): extend the route with the caller's own
first hop, which must forward the delivered amount plus every fee of the
interior route; aggregates are recomputed from the hop list. -/
def Route.Prepend (r : Route) (c : Channel) : Route :=
  let headDelay := match r.Hops with
    | [] => 0
    | h :: _ => h.Delay
  { r with Hops := ⟨c, (r.Amount + r.Fee) % U64, headDelay + c.Delay⟩ :: r.Hops }

/-- Modelled from the spec (§4.4): extend the route with the caller's own
last hop, which forwards the delivered amount. -/
def Route.Append (r : Route) (c : Channel) : Route :=
  { r with Hops := r.Hops ++ [⟨c, r.Amount, 0⟩] }

/-- The `NewRoute` constructor (graph package, not under `src/`); modelled from the spec. -/
def NewRoute (src dst amount : Nat) (hops : List RouteHop) : Route :=
  ⟨src, dst, amount, hops⟩

/-- Embeds `Graph.GetRoute` (graph.go lines 64–71): run `dijkstra` and wrap the hops
into a `Route`.  (rebalance.go calls this with an extra `maxHops` argument
from a later revision of the graph package; the `src/` revision embedded
here has no hop bound.) -/
def Graph.GetRoute (g : Graph) (src dst amount : Nat) (excl : List Nat)
    (fuel : Nat) : Except DijkstraErr Route :=
  (g.dijkstra src dst amount excl fuel).map (NewRoute src dst amount)

/-- Outcome of the external payment dispatch (`SendPay`), §6: the timeout
error is a recognized failure kind distinct from every other failure. -/
inductive PayErr where
  | timeout
  | other (code : Nat)
deriving DecidableEq

/-- Errors of the rebalance engine (`util` error constructors, not under
`src/`; modelled from the spec's §7 error taxonomy). -/
inductive RebErr where
  | Routing (e : DijkstraErr)
  | RouteTooExpensive (ppm maxPpm : Nat)
  | SendPayTimeout
  | TemporaryFailure
  | PreimageFailure
deriving DecidableEq

/-- The fields of `rebalance.Rebalance` read by `getRoute`/`tryRoute`. -/
structure Rebalance where
  NodeId : Nat
  OutChannel : Channel
  InChannel : Channel
  Amount : Nat
  MaxPPM : Nat

/-- Embeds `Rebalance.getRoute` (rebalance.go lines 10–32): route between
`OutChannel.Destination` and `InChannel.Source`, excluding self; prepend the
out-channel, append the in-channel; fail with `RouteTooExpensive` when the
composed route's fee-PPM exceeds `MaxPPM`. -/
def Rebalance.getRoute (r : Rebalance) (g : Graph) (fuel : Nat) :
    Except RebErr Route :=
  match g.GetRoute r.OutChannel.Destination r.InChannel.Source r.Amount
      [r.NodeId] fuel with
  | .error e => .error (.Routing e)
  | .ok route =>
    let route := (route.Prepend r.OutChannel).Append r.InChannel
    if r.MaxPPM < route.FeePPM then
      .error (.RouteTooExpensive route.FeePPM r.MaxPPM)
    else .ok route

/-- Embeds `Rebalance.tryRoute` (rebalance.go lines 34–59).  The preimage generator
and `SendPay` are external collaborators, passed in as oracles; the second
component of the result records whether `SendPay` was invoked (whether the
payment dispatch was attempted).  A `SendPay` timeout is returned verbatim, any
other `SendPay` failure becomes `TemporaryFailure`. -/
def Rebalance.tryRoute (r : Rebalance) (g : Graph) (fuel : Nat)
    (genPreimage : Except RebErr Nat)
    (sendPay : Route → Nat → Except PayErr Nat) :
    Except RebErr Route × Bool :=
  match genPreimage with
  | .error e => (.error e, false)
  | .ok paymentSecret =>
    match r.getRoute g fuel with
    | .error e => (.error e, false)
    | .ok route =>
      match sendPay route paymentSecret with
      | .error .timeout => (.error .SendPayTimeout, true)
      | .error (.other _) => (.error .TemporaryFailure, true)
      | .ok _ => (.ok route, true)

/-! ### Helpers for stating the claims -/

/-- Insert a channel into a graph: index it with `AddChannel` and write its
`Channels` entry — the combined effect of the creation branch of `Refresh`.
Used to build the concrete graphs of the statements below. -/
def addFull (g : Graph) (c : Channel) : Graph :=
  let g' := g.AddChannel c
  { g' with
    Channels := (chanKey c.ShortChannelId c.Source c.Destination, c) ::
      g'.Channels }

/-- Build a graph from a list of channels. -/
def mkGraph (cs : List Channel) : Graph :=
  cs.foldl addFull { Channels := [], Outbound := [], Inbound := [] }

/-- The consistency invariant of the derived indices (spec §3): every scid
listed in `Inbound[u][v]` keys a channel (under scid + direction of `v → u`)
whose endpoints really are `v → u`. -/
def wellFormedB (g : Graph) : Bool :=
  g.Inbound.all fun p =>
    p.2.all fun q =>
      q.2.all fun scid =>
        match alookup (scid, GetDirection q.1 p.1) g.Channels with
        | none => false
        | some c => c.Source == q.1 && c.Destination == p.1

/-- Every fee the search can probe stays below `2^62`: each channel's fee,
evaluated at the largest amount the search can carry (the delivered amount
plus `maxDistance`, since every queued amount is the delivered amount plus
a priority bounded by `maxDistance`), is below `2^62`.  In this regime Go's
`int(channel.ComputeFee(amount))` cast is value-preserving and the `int64`
sums `distance[u] + channelFee` stay in `[0, 2^63)`, so the `Nat` fee table
of this embedding computes exactly what the Go code computes. -/
def feesBoundedB (g : Graph) (amount : Nat) : Bool :=
  g.Channels.all fun p =>
    p.2.BaseFeeMillisatoshi +
        (amount + maxDistance) * p.2.FeePerMillionth / 1000000 <
      2 ^ 62

/-- Total fee of a hop sequence: each hop pays its channel's fee on the
amount it forwards (this is the quantity `dijkstra` minimizes). -/
def totalFee (hops : List RouteHop) : Nat :=
  hops.foldl (fun acc h => acc + h.Channel.ComputeFee h.Amount) 0

/-- Fee of a path given in reverse (destination-side channel first), built
exactly like the search builds it: the amount grows by each channel's fee
while walking toward the source; `none` when some channel fails `CanUse` at
the amount it would have to forward. -/
def pathFeeRev : List Channel → Nat → Option Nat
  | [], _ => some 0
  | c :: rest, a =>
    if c.CanUse a then
      (pathFeeRev rest ((a + c.ComputeFee a) % U64)).map
        (fun f => f + c.ComputeFee a)
    else none

/-- Fee of a forward-ordered simple path (list of channels from source to
destination) delivering `amount`; `none` when infeasible. -/
def pathFee (cs : List Channel) (amount : Nat) : Option Nat :=
  pathFeeRev cs.reverse amount

/-- All simple paths (as forward channel lists) from `x` to `dst` using the
given channel pool, avoiding the `visited` nodes. -/
def simplePathsFrom (chans : List Channel) (visited : List Nat)
    (x dst : Nat) : Nat → List (List Channel)
  | 0 => []
  | fuel + 1 =>
    if x = dst then [[]]
    else
      ((chans.filter fun c =>
          c.Source == x && !(visited.contains c.Destination)).map
        (fun c =>
          (simplePathsFrom chans (c.Destination :: visited) c.Destination dst
            fuel).map (fun p => c :: p))).flatten

/-- All simple paths from `src` to `dst` in `g`. -/
def simplePaths (g : Graph) (src dst : Nat) : List (List Channel) :=
  simplePathsFrom (g.Channels.map Prod.snd) [src] src dst
    (g.Channels.length + 1)

/-- The minimum total fee over all feasible simple paths from `src` to `dst`
delivering `amount` (`none` when no simple path is feasible). -/
def minSimplePathFee (g : Graph) (src dst amount : Nat) : Option Nat :=
  ((simplePaths g src dst).filterMap (fun p => pathFee p amount)).foldl
    (fun acc f =>
      match acc with
      | none => some f
      | some m => some (Nat.min m f))
    none

/-- The fee of the route found by `dijkstra`, when it finds one. -/
def dijkstraFee (g : Graph) (src dst amount : Nat) (excl : List Nat)
    (fuel : Nat) : Option Nat :=
  match g.dijkstra src dst amount excl fuel with
  | .ok hops => some (totalFee hops)
  | .error _ => none

/-- Forward-order amounts are non-increasing (each hop forwards at least as
much as the next one). -/
def amountsNonIncrB : List RouteHop → Bool
  | h1 :: h2 :: t => decide (h2.Amount ≤ h1.Amount) && amountsNonIncrB (h2 :: t)
  | _ => true

/-- Forward-order amounts are non-decreasing — the reading asserted by the
spec's Route invariant. -/
def amountsNonDecrB : List RouteHop → Bool
  | h1 :: h2 :: t => decide (h1.Amount ≤ h2.Amount) && amountsNonDecrB (h2 :: t)
  | _ => true

/-! ### Concrete graphs for the individual claims

Node tokens: the graphs below use small numerals as node identifiers.
Every concrete `dijkstra` run below is free of priority ties, and its
relaxations within one expansion touch pairwise distinct nodes, so the run
does not depend on Go's unspecified map-iteration and heap tie-break
order. -/

/-- A channel with everything generous: huge bounds and liquidity, zero
proportional fee — only the base fee matters. -/
def baseChan (scid s d fee : Nat) : Channel :=
  { ShortChannelId := scid, Source := s, Destination := d
    Satoshis := 100000, BaseFeeMillisatoshi := fee, FeePerMillionth := 0
    MinHtlc := 0, MaxHtlc := 1000000000000, Delay := 6
    Liquidity := 1000000000000 }

/-- Like `baseChan` but with a binding minimum forwardable amount. -/
def minChan (scid s d fee minH : Nat) : Channel :=
  { baseChan scid s d fee with MinHtlc := minH }

/-- C1's counterexample graph: nodes 1 = source, 2, 3, 4 = destination.
The direct channel 1→4 costs 1000; the cheap simple path 1→2→3→4 costs 60
but its first channel only forwards amounts ≥ 1050, which the search probes
at 1010 (the cost-10 way of reaching node 2) and therefore discards. -/
def gOpt : Graph :=
  mkGraph
    [ baseChan 1 2 4 10,       -- 2→4, fee 10
      baseChan 2 2 3 60,       -- 2→3, fee 60
      baseChan 3 3 4 0,        -- 3→4, fee 0
      minChan 4 1 2 0 1050,    -- 1→2, fee 0, needs ≥ 1050
      baseChan 5 1 4 1000,     -- 1→4, fee 1000
      baseChan 6 4 1 0 ]       -- 4→1 (gives the source an inbound edge)

/-- The spec's synthetic optimality scenario: 4 nodes, 5 directed edges with
known fees (1 = source, 4 = destination; the edge 4→1 keeps the source
inside the inbound index). -/
def gSynth : Graph :=
  mkGraph
    [ baseChan 1 1 2 10,       -- 1→2, fee 10
      baseChan 2 2 4 10,       -- 2→4, fee 10
      baseChan 3 1 3 5,        -- 1→3, fee 5
      baseChan 4 3 4 20,       -- 3→4, fee 20
      baseChan 5 4 1 1 ]       -- 4→1, fee 1

/-- A two-node graph with both directions of one physical channel. -/
def gPair : Graph :=
  mkGraph [ baseChan 1 1 2 10, baseChan 2 2 1 0 ]

/-- C8's counterexample graph: 1→2→3 with fees 5 and 7 (the channel 2→1
keeps the source inside the inbound index). -/
def gLine : Graph :=
  mkGraph [ baseChan 1 1 2 5, baseChan 2 2 3 7, baseChan 3 2 1 0 ]

/-- The empty graph. -/
def gEmpty : Graph := mkGraph []

/-- A listing record for the physical channel 1↔2 of capacity 1000 sats
(1,000,000 msat), listed in the 1→2 direction. -/
def rec12 : ListChannel :=
  { ShortChannelId := 1, Source := 1, Destination := 2, Satoshis := 1000
    BaseFeeMillisatoshi := 0, FeePerMillionth := 0, MinHtlc := 0
    MaxHtlc := 1000000, Delay := 6 }

/-- The same physical channel listed in the 2→1 direction. -/
def rec21 : ListChannel :=
  { rec12 with Source := 2, Destination := 1 }

/-! ### Loop invariants of the search -/

/-- Invariant behind the exclusion property (C5): every queued frontier node
is the destination or unexcluded, and every recorded winning hop has an
unexcluded source and a destination that is the search destination or
unexcluded. -/
def ExclInv (excl : List Nat) (dst : Nat) (st : DState) : Prop :=
  (∀ it ∈ st.pq, it.value.Node = dst ∨ it.value.Node ∉ excl) ∧
  (∀ v h, alookup v st.hop = some h →
    h.Channel.Source ∉ excl ∧
      (h.Channel.Destination = dst ∨ h.Channel.Destination ∉ excl))

/-- Invariant behind the amount-monotonicity property (C8): the distance
table never exceeds `maxDistance`; every queued item carries exactly the
delivered amount plus its priority, its priority dominates the current
distance of its node and is itself bounded; and every recorded hop forwards
at most `amount0 + distance[v]` while forwarding at least
`amount0 + distance` of the node it feeds. -/
def AmountInv (amount0 : Nat) (st : DState) : Prop :=
  (∀ w, distGo st.distance w ≤ maxDistance) ∧
  (∀ it ∈ st.pq,
    it.value.Amount = amount0 + it.priority ∧
    distGo st.distance it.value.Node ≤ it.priority ∧
    it.priority ≤ maxDistance) ∧
  (∀ v h, alookup v st.hop = some h →
    h.Amount ≤ amount0 + distGo st.distance v ∧
    amount0 + distGo st.distance h.Channel.Destination ≤ h.Amount)

/-! ### Basic lemmas about the embedded containers -/

theorem alookup_cons {α β : Type} [DecidableEq α] (k k' : α) (v : β)
    (l : List (α × β)) :
    alookup k ((k', v) :: l) = if k' = k then some v else alookup k l := rfl

theorem alookup_mem {α β : Type} [DecidableEq α] {k : α} {v : β} :
    ∀ {l : List (α × β)}, alookup k l = some v → (k, v) ∈ l := by
  intro l
  induction l with
  | nil => intro h; cases h
  | cons p t ih =>
    intro h
    rw [show p = (p.1, p.2) from rfl, alookup_cons] at h
    by_cases hk : p.1 = k
    · rw [if_pos hk] at h
      cases h
      have : p = (k, p.2) := by
        rw [show p = (p.1, p.2) from rfl, hk]
      rw [this]
      left
    · rw [if_neg hk] at h
      right
      exact ih h

theorem distGo_cons (v n w : Nat) (d : List (Nat × Nat)) :
    distGo ((v, n) :: d) w = if v = w then n else distGo d w := by
  unfold distGo
  rw [alookup_cons]
  by_cases h : v = w
  · rw [if_pos h, if_pos h]
    rfl
  · rw [if_neg h, if_neg h]

theorem popMin_mem :
    ∀ {l : List Item} {it : Item} {rest : List Item},
      popMin l = some (it, rest) → it ∈ l := by
  intro l
  induction l with
  | nil => intro it rest h; cases h
  | cons x xs ih =>
    intro it rest h
    unfold popMin at h
    cases hm : popMin xs with
    | none =>
      rw [hm] at h
      cases h
      left
    | some p =>
      obtain ⟨m, r⟩ := p
      rw [hm] at h
      dsimp only at h
      by_cases hle : x.priority ≤ m.priority
      · rw [if_pos hle] at h
        cases h
        left
      · rw [if_neg hle] at h
        cases h
        right
        exact ih hm

theorem popMin_subset :
    ∀ {l : List Item} {it : Item} {rest : List Item},
      popMin l = some (it, rest) → ∀ x ∈ rest, x ∈ l := by
  intro l
  induction l with
  | nil => intro it rest h; cases h
  | cons x xs ih =>
    intro it rest h y hy
    unfold popMin at h
    cases hm : popMin xs with
    | none =>
      rw [hm] at h
      cases h
      cases hy
    | some p =>
      obtain ⟨m, r⟩ := p
      rw [hm] at h
      dsimp only at h
      by_cases hle : x.priority ≤ m.priority
      · rw [if_pos hle] at h
        cases h
        right
        exact hy
      · rw [if_neg hle] at h
        cases h
        cases hy with
        | head => left
        | tail _ hy' => right; exact ih hm y hy'

theorem rebuild_mem {hopm : List (Nat × RouteHop)} {dst : Nat} :
    ∀ {fuel u : Nat} {hops : List RouteHop},
      rebuild hopm dst fuel u = .ok hops →
      ∀ h ∈ hops, ∃ v, alookup v hopm = some h := by
  intro fuel
  induction fuel with
  | zero => intro u hops h; cases h
  | succ f ih =>
    intro u hops h hh hmem
    unfold rebuild at h
    by_cases hd : u = dst
    · rw [if_pos hd] at h
      cases h
      cases hmem
    · rw [if_neg hd] at h
      cases hlk : alookup u hopm with
      | none => rw [hlk] at h; cases h
      | some h0 =>
        rw [hlk] at h
        dsimp only at h
        cases hr : rebuild hopm dst f h0.Channel.Destination with
        | error e => rw [hr] at h; cases h
        | ok hops' =>
          rw [hr] at h
          cases h
          cases hmem with
          | head => exact ⟨u, hlk⟩
          | tail _ hmem' => exact ih hr hh hmem'

/-! ### The well-formedness of the inbound index -/

theorem wf_channel {g : Graph} (hwf : wellFormedB g = true) {u : Nat}
    {ve : List (Nat × List Nat)} {v : Nat} {scids : List Nat} {scid : Nat}
    (h1 : alookup u g.Inbound = some ve) (h2 : (v, scids) ∈ ve)
    (h3 : scid ∈ scids) :
    ∃ c, alookup (scid, GetDirection v u) g.Channels = some c ∧
      c.Source = v ∧ c.Destination = u := by
  have hmem : (u, ve) ∈ g.Inbound := alookup_mem h1
  unfold wellFormedB at hwf
  rw [List.all_eq_true] at hwf
  have h4 := hwf _ hmem
  dsimp only at h4
  rw [List.all_eq_true] at h4
  have h5 := h4 _ h2
  dsimp only at h5
  rw [List.all_eq_true] at h5
  have h6 := h5 _ h3
  cases hlk : alookup (scid, GetDirection v u) g.Channels with
  | none => rw [hlk] at h6; cases h6
  | some c =>
    rw [hlk] at h6
    dsimp only at h6
    rw [Bool.and_eq_true, beq_iff_eq, beq_iff_eq] at h6
    exact ⟨c, rfl, h6.1, h6.2⟩

theorem inbound_channel {g : Graph} (hwf : wellFormedB g = true) {u : Nat} :
    ∀ p ∈ inboundOf g u, ∀ scid ∈ p.2, ∀ c,
      alookup (scid, GetDirection p.1 u) g.Channels = some c →
      c.Source = p.1 ∧ c.Destination = u := by
  intro p hp2 scid hscid c hc
  unfold inboundOf at hp2
  cases hlk : alookup u g.Inbound with
  | none =>
    rw [hlk] at hp2
    cases hp2
  | some ve =>
    rw [hlk] at hp2
    have hpve : (p.1, p.2) ∈ ve := by
      rw [show (p.1, p.2) = p from rfl]
      exact hp2
    obtain ⟨c', hc', hs', hd'⟩ := wf_channel hwf hlk hpve hscid
    rw [hc'] at hc
    cases hc
    exact ⟨hs', hd'⟩

/-! ### Preservation of the exclusion invariant -/

theorem relaxEdge_excl {g : Graph} {excl : List Nat}
    {dst u amount delay v scid : Nat} {st st' : DState}
    (hinv : ExclInv excl dst st)
    (hv : v ∉ excl)
    (hu : u = dst ∨ u ∉ excl)
    (hch : ∀ c, alookup (scid, GetDirection v u) g.Channels = some c →
      c.Source = v ∧ c.Destination = u)
    (h : relaxEdge g u amount delay v scid st = some st') :
    ExclInv excl dst st' := by
  unfold relaxEdge at h
  cases hlk : alookup (scid, GetDirection v u) g.Channels with
  | none => rw [hlk] at h; cases h
  | some channel =>
    rw [hlk] at h
    dsimp only at h
    by_cases hcu : channel.CanUse amount = true
    · rw [if_pos hcu] at h
      by_cases hlt : distGo st.distance u + channel.ComputeFee amount <
          distGo st.distance v
      · rw [if_pos hlt] at h
        cases h
        obtain ⟨hpq, hhop⟩ := hinv
        obtain ⟨hsrc, hdst⟩ := hch channel hlk
        constructor
        · intro it hit
          rcases List.mem_append.mp hit with hold | hnew
          · exact hpq it hold
          · rw [List.mem_singleton.mp hnew]
            right
            exact hv
        · intro w hw hlkw
          rw [alookup_cons] at hlkw
          by_cases hvw : v = w
          · rw [if_pos hvw] at hlkw
            cases hlkw
            exact ⟨by rw [hsrc]; exact hv, by rw [hdst]; exact hu⟩
          · rw [if_neg hvw] at hlkw
            exact hhop w hw hlkw
      · rw [if_neg hlt] at h
        cases h
        exact hinv
    · rw [if_neg hcu] at h
      cases h
      exact hinv

theorem relaxScids_excl {g : Graph} {excl : List Nat}
    {dst u amount delay v : Nat} :
    ∀ {scids : List Nat} {st st' : DState},
      ExclInv excl dst st → v ∉ excl → (u = dst ∨ u ∉ excl) →
      (∀ scid ∈ scids, ∀ c,
        alookup (scid, GetDirection v u) g.Channels = some c →
        c.Source = v ∧ c.Destination = u) →
      relaxScids g u amount delay v scids st = some st' →
      ExclInv excl dst st' := by
  intro scids
  induction scids with
  | nil =>
    intro st st' hinv _ _ _ h
    cases h
    exact hinv
  | cons scid rest ih =>
    intro st st' hinv hv hu hch h
    unfold relaxScids at h
    cases he : relaxEdge g u amount delay v scid st with
    | none => rw [he] at h; cases h
    | some st1 =>
      rw [he] at h
      dsimp only at h
      exact ih (relaxEdge_excl hinv hv hu (hch scid (List.mem_cons_self _ _)) he)
        hv hu (fun s hs => hch s (List.mem_cons_of_mem _ hs)) h

theorem expand_excl {g : Graph} {excl : List Nat} {dst u amount delay : Nat} :
    ∀ {pairs : List (Nat × List Nat)} {st st' : DState},
      ExclInv excl dst st → (u = dst ∨ u ∉ excl) →
      (∀ p ∈ pairs, ∀ scid ∈ p.2, ∀ c,
        alookup (scid, GetDirection p.1 u) g.Channels = some c →
        c.Source = p.1 ∧ c.Destination = u) →
      expand g excl u amount delay pairs st = some st' →
      ExclInv excl dst st' := by
  intro pairs
  induction pairs with
  | nil =>
    intro st st' hinv _ _ h
    cases h
    exact hinv
  | cons p rest ih =>
    obtain ⟨v, scids⟩ := p
    intro st st' hinv hu hch h
    unfold expand at h
    by_cases hex : v ∈ excl
    · rw [if_pos hex] at h
      exact ih hinv hu (fun q hq => hch q (List.mem_cons_of_mem _ hq)) h
    · rw [if_neg hex] at h
      cases hs : relaxScids g u amount delay v scids st with
      | none => rw [hs] at h; cases h
      | some st1 =>
        rw [hs] at h
        dsimp only at h
        exact ih
          (relaxScids_excl hinv hex hu
            (fun scid hscid => hch (v, scids) (List.mem_cons_self _ _) scid hscid)
            hs)
          hu (fun q hq => hch q (List.mem_cons_of_mem _ hq)) h

theorem dLoop_excl {g : Graph} {src : Nat} {excl : List Nat} {dst : Nat}
    (hwf : wellFormedB g = true) :
    ∀ {fuel : Nat} {st st' : DState},
      ExclInv excl dst st → dLoop g src excl fuel st = .ok st' →
      ExclInv excl dst st' := by
  intro fuel
  induction fuel with
  | zero => intro st st' _ h; cases h
  | succ f ih =>
    intro st st' hinv h
    unfold dLoop at h
    cases hp : popMin st.pq with
    | none =>
      rw [hp] at h
      cases h
      exact hinv
    | some pr =>
      obtain ⟨it, rest⟩ := pr
      rw [hp] at h
      dsimp only at h
      have hrest : ExclInv excl dst { st with pq := rest } :=
        ⟨fun x hx => hinv.1 x (popMin_subset hp x hx), hinv.2⟩
      by_cases hsrc : it.value.Node = src
      · rw [if_pos hsrc] at h
        cases h
        exact hrest
      · rw [if_neg hsrc] at h
        by_cases hstale : distGo st.distance it.value.Node < it.priority
        · rw [if_pos hstale] at h
          exact ih hrest h
        · rw [if_neg hstale] at h
          cases he : expand g excl it.value.Node it.value.Amount it.value.Delay
              (inboundOf g it.value.Node) { st with pq := rest } with
          | none => rw [he] at h; cases h
          | some st1 =>
            rw [he] at h
            dsimp only at h
            have hu : it.value.Node = dst ∨ it.value.Node ∉ excl :=
              hinv.1 it (popMin_mem hp)
            exact ih (expand_excl hrest hu (inbound_channel hwf) he) h

theorem initState_excl (g : Graph) (dst amount : Nat) (excl : List Nat) :
    ExclInv excl dst (initState g dst amount) := by
  constructor
  · intro it hit
    rw [List.mem_singleton.mp hit]
    left
    rfl
  · intro v h hlk
    simp only [initState, alookup] at hlk
    cases hlk

/-! ### Preservation of the amount invariant -/

theorem relaxEdge_amount {g : Graph} {u amount delay v scid : Nat}
    {st st' : DState} {amount0 du : Nat}
    (hinv : AmountInv amount0 st)
    (hdu : distGo st.distance u = du)
    (ham : amount = amount0 + du)
    (ha0 : amount0 ≤ 2 ^ 63)
    (hch : ∀ c, alookup (scid, GetDirection v u) g.Channels = some c →
      c.Destination = u)
    (h : relaxEdge g u amount delay v scid st = some st') :
    AmountInv amount0 st' ∧ distGo st'.distance u = du := by
  obtain ⟨hdist, hpq, hhop⟩ := hinv
  unfold relaxEdge at h
  cases hlk : alookup (scid, GetDirection v u) g.Channels with
  | none => rw [hlk] at h; cases h
  | some channel =>
    rw [hlk] at h
    dsimp only at h
    by_cases hcu : channel.CanUse amount = true
    · rw [if_pos hcu] at h
      by_cases hlt : distGo st.distance u + channel.ComputeFee amount <
          distGo st.distance v
      · rw [if_pos hlt] at h
        cases h
        have hdest := hch channel hlk
        have hvu : v ≠ u := by
          intro hvu
          rw [hvu] at hlt
          omega
        have hvb : distGo st.distance v ≤ maxDistance := hdist v
        have hndb : distGo st.distance u + channel.ComputeFee amount ≤
            maxDistance := by omega
        have hU : U64 = 18446744073709551616 := by norm_num [U64]
        have h31 : maxDistance = 2147483648 := by norm_num [maxDistance]
        have h63 : (2 : Nat) ^ 63 = 9223372036854775808 := by norm_num
        refine ⟨⟨?_, ?_, ?_⟩, ?_⟩
        · intro w
          dsimp only
          rw [distGo_cons]
          by_cases hvw : v = w
          · rw [if_pos hvw]
            exact hndb
          · rw [if_neg hvw]
            exact hdist w
        · intro it hit
          dsimp only at hit ⊢
          rcases List.mem_append.mp hit with hold | hnew
          · obtain ⟨ha, hb, hc⟩ := hpq it hold
            refine ⟨ha, ?_, hc⟩
            rw [distGo_cons]
            by_cases hvw : v = it.value.Node
            · rw [if_pos hvw]
              rw [hvw] at hlt
              omega
            · rw [if_neg hvw]
              exact hb
          · rw [List.mem_singleton.mp hnew]
            dsimp only
            have hlt2 : amount + channel.ComputeFee amount < U64 := by omega
            refine ⟨?_, ?_, ?_⟩
            · rw [Nat.mod_eq_of_lt hlt2]
              omega
            · rw [distGo_cons, if_pos rfl]
            · omega
        · intro w hw hlkw
          dsimp only at hlkw ⊢
          rw [alookup_cons] at hlkw
          by_cases hvw : v = w
          · rw [if_pos hvw] at hlkw
            cases hlkw
            dsimp only
            constructor
            · rw [distGo_cons, if_pos hvw]
              omega
            · rw [hdest, distGo_cons, if_neg hvu]
              omega
          · rw [if_neg hvw] at hlkw
            obtain ⟨ha, hb⟩ := hhop w hw hlkw
            constructor
            · rw [distGo_cons, if_neg hvw]
              exact ha
            · rw [distGo_cons]
              by_cases hvd : v = hw.Channel.Destination
              · rw [if_pos hvd]
                have hlt3 : distGo st.distance u + channel.ComputeFee amount <
                    distGo st.distance hw.Channel.Destination := by
                  rw [← hvd]
                  exact hlt
                omega
              · rw [if_neg hvd]
                exact hb
        · dsimp only
          rw [distGo_cons, if_neg hvu]
          exact hdu
      · rw [if_neg hlt] at h
        cases h
        exact ⟨⟨hdist, hpq, hhop⟩, hdu⟩
    · rw [if_neg hcu] at h
      cases h
      exact ⟨⟨hdist, hpq, hhop⟩, hdu⟩

theorem relaxScids_amount {g : Graph} {u amount delay v : Nat}
    {amount0 du : Nat}
    (ham : amount = amount0 + du)
    (ha0 : amount0 ≤ 2 ^ 63) :
    ∀ {scids : List Nat} {st st' : DState},
      AmountInv amount0 st → distGo st.distance u = du →
      (∀ scid ∈ scids, ∀ c,
        alookup (scid, GetDirection v u) g.Channels = some c →
        c.Destination = u) →
      relaxScids g u amount delay v scids st = some st' →
      AmountInv amount0 st' ∧ distGo st'.distance u = du := by
  intro scids
  induction scids with
  | nil =>
    intro st st' hinv hdu _ h
    cases h
    exact ⟨hinv, hdu⟩
  | cons scid rest ih =>
    intro st st' hinv hdu hch h
    unfold relaxScids at h
    cases he : relaxEdge g u amount delay v scid st with
    | none => rw [he] at h; cases h
    | some st1 =>
      rw [he] at h
      dsimp only at h
      obtain ⟨hinv1, hdu1⟩ := relaxEdge_amount hinv hdu ham ha0
        (hch scid (List.mem_cons_self _ _)) he
      exact ih hinv1 hdu1 (fun s hs => hch s (List.mem_cons_of_mem _ hs)) h

theorem expand_amount {g : Graph} {excl : List Nat} {u amount delay : Nat}
    {amount0 du : Nat}
    (ham : amount = amount0 + du)
    (ha0 : amount0 ≤ 2 ^ 63) :
    ∀ {pairs : List (Nat × List Nat)} {st st' : DState},
      AmountInv amount0 st → distGo st.distance u = du →
      (∀ p ∈ pairs, ∀ scid ∈ p.2, ∀ c,
        alookup (scid, GetDirection p.1 u) g.Channels = some c →
        c.Destination = u) →
      expand g excl u amount delay pairs st = some st' →
      AmountInv amount0 st' ∧ distGo st'.distance u = du := by
  intro pairs
  induction pairs with
  | nil =>
    intro st st' hinv hdu _ h
    cases h
    exact ⟨hinv, hdu⟩
  | cons p rest ih =>
    obtain ⟨v, scids⟩ := p
    intro st st' hinv hdu hch h
    unfold expand at h
    by_cases hex : v ∈ excl
    · rw [if_pos hex] at h
      exact ih hinv hdu (fun q hq => hch q (List.mem_cons_of_mem _ hq)) h
    · rw [if_neg hex] at h
      cases hs : relaxScids g u amount delay v scids st with
      | none => rw [hs] at h; cases h
      | some st1 =>
        rw [hs] at h
        dsimp only at h
        obtain ⟨hinv1, hdu1⟩ := relaxScids_amount ham ha0 hinv hdu
          (fun scid hscid => hch (v, scids) (List.mem_cons_self _ _) scid hscid)
          hs
        exact ih hinv1 hdu1 (fun q hq => hch q (List.mem_cons_of_mem _ hq)) h

theorem dLoop_amount {g : Graph} {src : Nat} {excl : List Nat} {amount0 : Nat}
    (hwf : wellFormedB g = true) (ha0 : amount0 ≤ 2 ^ 63) :
    ∀ {fuel : Nat} {st st' : DState},
      AmountInv amount0 st → dLoop g src excl fuel st = .ok st' →
      AmountInv amount0 st' := by
  intro fuel
  induction fuel with
  | zero => intro st st' _ h; cases h
  | succ f ih =>
    intro st st' hinv h
    unfold dLoop at h
    cases hp : popMin st.pq with
    | none =>
      rw [hp] at h
      cases h
      exact hinv
    | some pr =>
      obtain ⟨it, rest⟩ := pr
      rw [hp] at h
      dsimp only at h
      have hrest : AmountInv amount0 { st with pq := rest } :=
        ⟨hinv.1, fun x hx => hinv.2.1 x (popMin_subset hp x hx), hinv.2.2⟩
      by_cases hsrc : it.value.Node = src
      · rw [if_pos hsrc] at h
        cases h
        exact hrest
      · rw [if_neg hsrc] at h
        by_cases hstale : distGo st.distance it.value.Node < it.priority
        · rw [if_pos hstale] at h
          exact ih hrest h
        · rw [if_neg hstale] at h
          cases he : expand g excl it.value.Node it.value.Amount it.value.Delay
              (inboundOf g it.value.Node) { st with pq := rest } with
          | none => rw [he] at h; cases h
          | some st1 =>
            rw [he] at h
            dsimp only at h
            obtain ⟨hAm, hle, _⟩ := hinv.2.1 it (popMin_mem hp)
            have hdu : distGo st.distance it.value.Node = it.priority :=
              Nat.le_antisymm hle (Nat.le_of_not_lt hstale)
            obtain ⟨hinv1, _⟩ := expand_amount hAm ha0 hrest hdu
              (fun p hp2 scid hscid c hc =>
                (inbound_channel hwf p hp2 scid hscid c hc).2)
              he
            exact ih hinv1 h

theorem distGo_init_le (g : Graph) (dst amount : Nat) :
    ∀ w, distGo (initState g dst amount).distance w ≤ maxDistance := by
  intro w
  unfold initState
  dsimp only
  rw [distGo_cons]
  by_cases h : dst = w
  · rw [if_pos h]
    exact Nat.zero_le _
  · rw [if_neg h]
    induction g.Inbound with
    | nil =>
      simp only [List.map_nil]
      unfold distGo alookup
      exact Nat.zero_le _
    | cons p t ih2 =>
      simp only [List.map_cons]
      rw [distGo_cons]
      by_cases hp : p.1 = w
      · rw [if_pos hp]
      · rw [if_neg hp]
        exact ih2

theorem initState_amount (g : Graph) (dst amount : Nat) :
    AmountInv amount (initState g dst amount) := by
  refine ⟨distGo_init_le g dst amount, ?_, ?_⟩
  · intro it hit
    rw [List.mem_singleton.mp hit]
    refine ⟨rfl, ?_, Nat.zero_le _⟩
    unfold initState
    dsimp only
    rw [distGo_cons, if_pos rfl]
  · intro v h hlk
    simp only [initState, alookup] at hlk
    cases hlk

theorem rebuild_chain {hopm : List (Nat × RouteHop)} {dst : Nat}
    {d : List (Nat × Nat)} {amount0 : Nat}
    (hhop : ∀ v h, alookup v hopm = some h →
      h.Amount ≤ amount0 + distGo d v ∧
      amount0 + distGo d h.Channel.Destination ≤ h.Amount) :
    ∀ {fuel u : Nat} {hops : List RouteHop},
      rebuild hopm dst fuel u = .ok hops → amountsNonIncrB hops = true := by
  intro fuel
  induction fuel with
  | zero => intro u hops h; cases h
  | succ f ih =>
    intro u hops h
    unfold rebuild at h
    by_cases hd : u = dst
    · rw [if_pos hd] at h
      cases h
      rfl
    · rw [if_neg hd] at h
      cases hlk : alookup u hopm with
      | none => rw [hlk] at h; cases h
      | some h0 =>
        rw [hlk] at h
        dsimp only at h
        cases hr : rebuild hopm dst f h0.Channel.Destination with
        | error e => rw [hr] at h; cases h
        | ok rest =>
          rw [hr] at h
          cases h
          have hrest := ih hr
          cases rest with
          | nil => rfl
          | cons h1 t =>
            cases f with
            | zero => cases hr
            | succ f' =>
              unfold rebuild at hr
              by_cases hdd : h0.Channel.Destination = dst
              · rw [if_pos hdd] at hr
                cases hr
              · rw [if_neg hdd] at hr
                cases hlk1 : alookup h0.Channel.Destination hopm with
                | none => rw [hlk1] at hr; cases hr
                | some hh =>
                  rw [hlk1] at hr
                  dsimp only at hr
                  cases hr2 : rebuild hopm dst f' hh.Channel.Destination with
                  | error e => rw [hr2] at hr; cases hr
                  | ok t' =>
                    rw [hr2] at hr
                    cases hr
                    have p0 := hhop u h0 hlk
                    have p1 := hhop _ h1 hlk1
                    unfold amountsNonIncrB
                    rw [Bool.and_eq_true, decide_eq_true_iff]
                    exact ⟨Nat.le_trans p1.1 p0.2, hrest⟩

/-! ### Arithmetic helpers for the refresh claims -/

theorem getDirection_ne {a b : Nat} (h : a ≠ b) :
    GetDirection a b ≠ GetDirection b a := by
  unfold GetDirection
  intro heq
  rw [decide_eq_decide] at heq
  omega

theorem wrapSum (cap L : Nat) (hcap : cap < U64) (hL : L < U64) :
    (L + (cap + U64 - L) % U64) % U64 = cap % U64 := by
  have hU : U64 = 18446744073709551616 := by norm_num [U64]
  rw [hU] at hcap hL ⊢
  omega

theorem capMsat_lt (c : ListChannel) : capMsat c < U64 := by
  unfold capMsat
  exact Nat.mod_lt _ (by norm_num [U64])

/-! ### The claims -/

/-- C1, counterexample: on `gOpt` (4 nodes: 1 source, 4 destination) with
amount 1000 and no exclusions, `dijkstra` returns the direct route of total
fee 1000, while exhaustive enumeration of the feasible simple paths finds
total fee 60 (the path 1→2→3→4, feasible because its first channel forwards
1060 ≥ its minimum of 1050, which the search only probes at 1010 and
discards) — so the returned fee is not the minimum claimed. -/
theorem claim_c1_counterexample :
    dijkstraFee gOpt 1 4 1000 [] 20 = some 1000 ∧
    minSimplePathFee gOpt 1 4 1000 = some 60 ∧
    dijkstraFee gOpt 1 4 1000 [] 20 ≠ minSimplePathFee gOpt 1 4 1000 := by
  decide

/-- C1, amended: on the spec's fixed synthetic optimality scenario (4 nodes,
5 directed edges with known fees, `gSynth`), the route found by `dijkstra`
has total fee equal to the minimum total fee over the exhaustive enumeration
of all feasible simple paths (both are 20); the general minimality statement
fails on graphs where a channel's usability depends on the amount (see the
counterexample). -/
theorem claim_c1_amended :
    dijkstraFee gSynth 1 4 1000 [] 20 = minSimplePathFee gSynth 1 4 1000 ∧
    dijkstraFee gSynth 1 4 1000 [] 20 = some 20 := by
  decide

/-- C2, counterexample: a physical channel of capacity 1000 sats
(1,000,000 msat); the first refresh creates both directions at 500,000 msat
and a second refresh of the 1→2 record with the average aging draw
(10,000,000 msat, the center of the configured window) raises the 1→2
liquidity estimate to 10,500,000 msat — more than ten times the capacity —
so `liquidity ≤ capacity` does not survive Refresh sequences. -/
theorem claim_c2_counterexample :
    (((Graph.Refresh gEmpty [(rec12, 10000000), (rec21, 10000000)]).bind
      (fun g1 => Graph.Refresh g1 [(rec12, 10000000)])).bind
      (fun g2 =>
        (alookup (chanKey 1 1 2) g2.Channels).map Channel.Liquidity)) =
      some 10500000 ∧
    capMsat rec12 = 1000000 ∧ ¬(10500000 ≤ capMsat rec12) := by
  decide

/-- C2, amended: liquidity estimates are unsigned, so `0 ≤ liquidity` always
holds, and the refresh step that creates a channel gives it liquidity
exactly half its capacity, so `liquidity ≤ capacity` holds at creation; the
aging update `max(liquidity + aging, capacity/2)` does not preserve the
upper bound (see the counterexample).  The capacity hypothesis confines
the statement to capacities below `2^53` msat, where Go's float64 halving
of the capacity is exact. -/
theorem claim_c2_amended (g : Graph) (c : ListChannel) (aging : Nat)
    (habs : alookup (chanKey c.ShortChannelId c.Source c.Destination)
      g.Channels = none)
    (_hcap : capMsat c < 2 ^ 53) :
    (refreshOne g c aging).bind
      (fun g' => (alookup (chanKey c.ShortChannelId c.Source c.Destination)
        g'.Channels).map Channel.Liquidity) = some (capMsat c / 2) ∧
    capMsat c / 2 ≤ capMsat c := by
  constructor
  · simp only [refreshOne]
    rw [habs]
    dsimp only [Option.bind]
    rw [alookup_cons, if_pos rfl]
    rfl
  · exact Nat.div_le_self _ _

/-- Witness for C2's amended theorem at the empty graph and the
1000-sat listing record. -/
theorem claim_c2_witness :
    (refreshOne gEmpty rec12 10000000).bind
      (fun g' => (alookup (chanKey 1 1 2) g'.Channels).map
        Channel.Liquidity) = some (capMsat rec12 / 2) ∧
    capMsat rec12 / 2 ≤ capMsat rec12 :=
  claim_c2_amended gEmpty rec12 10000000 (by decide) (by decide)

/-- C3, counterexample: same scenario as C2's — after the second refresh the
1→2 estimate is 10,500,000 msat and the opposite direction receives the
wrapped uint64 difference, so the two liquidities sum to
2^64 + 1,000,000 ≠ 1,000,000: the zero-sum-split equality fails exactly. -/
theorem claim_c3_counterexample :
    (((Graph.Refresh gEmpty [(rec12, 10000000), (rec21, 10000000)]).bind
      (fun g1 => Graph.Refresh g1 [(rec12, 10000000)])).bind
      (fun g2 =>
        (alookup (chanKey 1 1 2) g2.Channels).bind (fun a =>
          (alookup (chanKey 1 2 1) g2.Channels).map (fun b =>
            a.Liquidity + b.Liquidity)))) = some 18446744073710551616 ∧
    capMsat rec12 = 1000000 ∧
    (18446744073710551616 : Nat) ≠ 1000000 := by
  decide

/-- C3, amended: when both directional entries of the physical channel are
present, the refresh step that processes its listing record re-establishes
`liquidity(A→B) + liquidity(B→A) ≡ capacity (mod 2^64)`; the sum equals the
capacity exactly only when the aged estimate does not exceed the capacity,
because the opposite-direction write is a wrapping uint64 subtraction. -/
theorem claim_c3_amended (g : Graph) (c : ListChannel) (aging : Nat)
    (chA chB : Channel)
    (hne : c.Source ≠ c.Destination)
    (hA : alookup (chanKey c.ShortChannelId c.Source c.Destination)
      g.Channels = some chA)
    (hB : alookup (chanKey c.ShortChannelId c.Destination c.Source)
      g.Channels = some chB) :
    (refreshOne g c aging).bind
      (fun g' =>
        (alookup (chanKey c.ShortChannelId c.Source c.Destination)
          g'.Channels).bind (fun a =>
          (alookup (chanKey c.ShortChannelId c.Destination c.Source)
            g'.Channels).map (fun b => (a.Liquidity + b.Liquidity) % U64))) =
      some (capMsat c % U64) := by
  have hkk : ¬(chanKey c.ShortChannelId c.Source c.Destination =
      chanKey c.ShortChannelId c.Destination c.Source) :=
    fun hk => getDirection_ne hne (congrArg Prod.snd hk)
  simp only [refreshOne]
  rw [hA]
  dsimp only
  rw [hB]
  dsimp only [Option.bind]
  rw [alookup_cons, if_pos rfl]
  dsimp only [Option.bind]
  rw [alookup_cons, if_neg hkk, alookup_cons, if_pos rfl]
  dsimp only [Option.map, NewChannel]
  have hL : Nat.max ((chA.Liquidity + aging) % U64) (perfectBalance c) <
      U64 := by
    apply Nat.max_lt.mpr
    constructor
    · exact Nat.mod_lt _ (by norm_num [U64])
    · exact Nat.lt_of_le_of_lt (Nat.div_le_self _ _) (capMsat_lt c)
  rw [wrapSum (capMsat c) _ (capMsat_lt c) hL]

/-- Witness for C3's amended theorem: a graph holding both directions of the
1000-sat channel at 500,000 msat each, refreshed with the 1→2 record and
the average aging draw. -/
theorem claim_c3_witness :
    (refreshOne (addFull (addFull gEmpty (NewChannel rec12 500000))
        (NewChannel rec21 500000)) rec12 10000000).bind
      (fun g' =>
        (alookup (chanKey 1 1 2) g'.Channels).bind (fun a =>
          (alookup (chanKey 1 2 1) g'.Channels).map
            (fun b => (a.Liquidity + b.Liquidity) % U64))) =
      some (capMsat rec12 % U64) :=
  claim_c3_amended
    (addFull (addFull gEmpty (NewChannel rec12 500000))
      (NewChannel rec21 500000))
    rec12 10000000 (NewChannel rec12 500000) (NewChannel rec21 500000)
    (by decide) (by decide) (by decide)

/-- C4: the code evaluated at the failing input.  On the empty graph with
`src = 1 ≠ dst = 2` the queue empties without ever popping the source, yet
`dijkstra` does not return `NoRouteFound`: the source is absent from the
inbound index, so its distance entry was never initialized and reads as
Go's zero value `0 ≠ maxDistance`; reconstruction then reads the
zero-valued hop entry for the source and dereferences its nil channel — a
runtime panic instead of the typed error the claim (and spec §7) demand. -/
theorem claim_c4_panic :
    Graph.dijkstra gEmpty 1 2 5 [] 10 = .error .panicked ∧
    ¬(Graph.dijkstra gEmpty 1 2 5 [] 10 = .error .NoRouteFound) := by
  decide

/-- C5, counterexample: on the two-node graph `gPair` with the destination
itself excluded, the search still returns the one-hop route 1→2, whose hop
destination is the excluded node — so "no hop whose channel source or
destination is excluded" is false as stated. -/
theorem claim_c5_counterexample :
    Graph.dijkstra gPair 1 2 1000 [2] 20 =
      .ok [⟨baseChan 1 1 2 10, 1000, 0⟩] ∧
    (⟨baseChan 1 1 2 10, 1000, 0⟩ : RouteHop).Channel.Destination ∈
      ([2] : List Nat) := by
  decide

/-- C5, amended: with a well-formed inbound index, a route returned by
`dijkstra` never uses an excluded node as a hop source, and a hop
destination lying in the exclusion set can only be the route's destination
itself (the seed of the backward search, which the loop never tests against
the exclusion set); in particular excluded nodes other than `dst` never
appear on the path. -/
theorem claim_c5_amended (g : Graph) (src dst amount : Nat) (excl : List Nat)
    (fuel : Nat) (hops : List RouteHop)
    (hwf : wellFormedB g = true)
    (hrun : g.dijkstra src dst amount excl fuel = .ok hops) :
    ∀ h ∈ hops, h.Channel.Source ∉ excl ∧
      (h.Channel.Destination ∈ excl → h.Channel.Destination = dst) := by
  unfold Graph.dijkstra at hrun
  cases hl : dLoop g src excl fuel (initState g dst amount) with
  | error e => rw [hl] at hrun; cases hrun
  | ok stF =>
    rw [hl] at hrun
    dsimp only at hrun
    by_cases hnr : distGo stF.distance src = maxDistance
    · rw [if_pos hnr] at hrun
      cases hrun
    · rw [if_neg hnr] at hrun
      have hinv := dLoop_excl hwf (initState_excl g dst amount excl) hl
      intro h hh
      obtain ⟨v, hv⟩ := rebuild_mem hrun h hh
      have hp := hinv.2 v h hv
      refine ⟨hp.1, fun hin => ?_⟩
      rcases hp.2 with hdst | hnot
      · exact hdst
      · exact absurd hin hnot

/-- Witness for C5's amended theorem on `gPair` with the destination
excluded: the returned hop's source is not excluded and its excluded
destination is the route destination. -/
theorem claim_c5_witness :
    (⟨baseChan 1 1 2 10, 1000, 0⟩ : RouteHop).Channel.Source ∉
      ([2] : List Nat) ∧
    (⟨baseChan 1 1 2 10, 1000, 0⟩ : RouteHop).Channel.Destination = 2 :=
  ⟨(claim_c5_amended gPair 1 2 1000 [2] 20 [⟨baseChan 1 1 2 10, 1000, 0⟩]
      (by decide) (by decide) _ (by decide)).1,
   (claim_c5_amended gPair 1 2 1000 [2] 20 [⟨baseChan 1 1 2 10, 1000, 0⟩]
      (by decide) (by decide) _ (by decide)).2 (by decide)⟩

/-- C8, counterexample: on `gLine` (1→2→3, base fees 5 and 7, amount 1000)
the returned hop sequence forwards 1007 then 1000 — amounts read in forward
payment order are decreasing, not "strictly non-decreasing" as the claim
states (fees accrue toward the source, not the destination). -/
theorem claim_c8_counterexample :
    Graph.dijkstra gLine 1 3 1000 [] 20 =
      .ok [⟨baseChan 1 1 2 5, 1007, 6⟩, ⟨baseChan 2 2 3 7, 1000, 0⟩] ∧
    amountsNonDecrB
      [⟨baseChan 1 1 2 5, 1007, 6⟩, ⟨baseChan 2 2 3 7, 1000, 0⟩] = false := by
  decide

/-- C8, amended: with a well-formed inbound index, a delivered amount of at
most 2^63 (so the uint64 amount arithmetic cannot wrap) and every probeable
channel fee below 2^62 (so Go's `int(ComputeFee)` cast is value-preserving
and its `int64` distance sums stay non-negative and overflow-free — the
regime in which this embedding computes exactly what the Go code computes),
the per-hop forwarding amounts of any returned hop sequence are
non-DEcreasing from destination to source in the backward construction
order — equivalently non-increasing when the hops are read in forward
payment order.  A fee of `2^63` or more turns negative under Go's cast and
can produce non-monotone amounts through wrapping `int64` distances, so the
fee bound is necessary, not cosmetic. -/
theorem claim_c8_amended (g : Graph) (src dst amount : Nat) (excl : List Nat)
    (fuel : Nat) (hops : List RouteHop)
    (hwf : wellFormedB g = true) (ha : amount ≤ 2 ^ 63)
    (_hfees : feesBoundedB g amount = true)
    (hrun : g.dijkstra src dst amount excl fuel = .ok hops) :
    amountsNonIncrB hops = true := by
  unfold Graph.dijkstra at hrun
  cases hl : dLoop g src excl fuel (initState g dst amount) with
  | error e => rw [hl] at hrun; cases hrun
  | ok stF =>
    rw [hl] at hrun
    dsimp only at hrun
    by_cases hnr : distGo stF.distance src = maxDistance
    · rw [if_pos hnr] at hrun
      cases hrun
    · rw [if_neg hnr] at hrun
      have hinv := dLoop_amount hwf ha (initState_amount g dst amount) hl
      exact rebuild_chain hinv.2.2 hrun

/-- Witness for C8's amended theorem on `gLine`: the returned amounts
1007, 1000 are non-increasing in forward order. -/
theorem claim_c8_witness :
    amountsNonIncrB
      [⟨baseChan 1 1 2 5, 1007, 6⟩, ⟨baseChan 2 2 3 7, 1000, 0⟩] = true :=
  claim_c8_amended gLine 1 3 1000 [] 20
    [⟨baseChan 1 1 2 5, 1007, 6⟩, ⟨baseChan 2 2 3 7, 1000, 0⟩]
    (by decide) (by decide) (by decide) (by decide)

/-- C6: if the preimage generation succeeds and the interior search finds a
route, then whenever the composed route (out-channel prepended, in-channel
appended) has fee-PPM strictly above `MaxPPM`, `tryRoute` returns the
`RouteTooExpensive` error (distinct from `NoRouteFound`) and `SendPay` is
never invoked (the invocation flag is `false`). -/
theorem claim_c6_too_expensive (r : Rebalance) (g : Graph) (fuel p : Nat)
    (genPreimage : Except RebErr Nat)
    (sendPay : Route → Nat → Except PayErr Nat) (route0 : Route)
    (hgen : genPreimage = .ok p)
    (hroute : g.GetRoute r.OutChannel.Destination r.InChannel.Source r.Amount
      [r.NodeId] fuel = .ok route0)
    (hfee : r.MaxPPM <
      ((route0.Prepend r.OutChannel).Append r.InChannel).FeePPM) :
    r.tryRoute g fuel genPreimage sendPay =
      (.error (.RouteTooExpensive
        ((route0.Prepend r.OutChannel).Append r.InChannel).FeePPM r.MaxPPM),
       false) := by
  unfold Rebalance.tryRoute
  rw [hgen]
  dsimp only
  unfold Rebalance.getRoute
  rw [hroute]
  dsimp only
  rw [if_pos hfee]

/-- Witness for C6 on `gPair`: MaxPPM 0, interior route 1→2 of fee 10 on
amount 1000, composed fee-PPM 10000 > 0, so the attempt fails with
`RouteTooExpensive` and the dispatch flag stays `false`. -/
theorem claim_c6_witness :
    Rebalance.tryRoute ⟨0, baseChan 7 0 1 0, baseChan 8 2 0 0, 1000, 0⟩
      gPair 20 (.ok 5) (fun _ _ => .ok 0) =
      (.error (.RouteTooExpensive 10000 0), false) :=
  claim_c6_too_expensive ⟨0, baseChan 7 0 1 0, baseChan 8 2 0 0, 1000, 0⟩
    gPair 20 5 (.ok 5) (fun _ _ => .ok 0)
    (NewRoute 1 2 1000 [⟨baseChan 1 1 2 10, 1000, 0⟩])
    rfl (by decide) (by decide)

/-- C9: if the preimage generation succeeds, the interior search finds a
route and the composed route passes the fee ceiling, then `tryRoute`
returns the timeout error verbatim when `SendPay` times out, the single
normalized `TemporaryFailure` when `SendPay` fails with any other error,
and the completed composed route when `SendPay` succeeds. -/
theorem claim_c9_sendpay_outcomes (r : Rebalance) (g : Graph) (fuel p : Nat)
    (genPreimage : Except RebErr Nat)
    (sendPay : Route → Nat → Except PayErr Nat) (route0 : Route)
    (hgen : genPreimage = .ok p)
    (hroute : g.GetRoute r.OutChannel.Destination r.InChannel.Source r.Amount
      [r.NodeId] fuel = .ok route0)
    (hfee : ¬(r.MaxPPM <
      ((route0.Prepend r.OutChannel).Append r.InChannel).FeePPM)) :
    (sendPay ((route0.Prepend r.OutChannel).Append r.InChannel) p =
        .error .timeout →
      r.tryRoute g fuel genPreimage sendPay =
        (.error .SendPayTimeout, true)) ∧
    (∀ m, sendPay ((route0.Prepend r.OutChannel).Append r.InChannel) p =
        .error (.other m) →
      r.tryRoute g fuel genPreimage sendPay =
        (.error .TemporaryFailure, true)) ∧
    (∀ q, sendPay ((route0.Prepend r.OutChannel).Append r.InChannel) p =
        .ok q →
      r.tryRoute g fuel genPreimage sendPay =
        (.ok ((route0.Prepend r.OutChannel).Append r.InChannel), true)) := by
  refine ⟨?_, ?_, ?_⟩
  · intro hsend
    unfold Rebalance.tryRoute
    rw [hgen]
    dsimp only
    unfold Rebalance.getRoute
    rw [hroute]
    dsimp only
    rw [if_neg hfee]
    dsimp only
    rw [hsend]
  · intro m hsend
    unfold Rebalance.tryRoute
    rw [hgen]
    dsimp only
    unfold Rebalance.getRoute
    rw [hroute]
    dsimp only
    rw [if_neg hfee]
    dsimp only
    rw [hsend]
  · intro q hsend
    unfold Rebalance.tryRoute
    rw [hgen]
    dsimp only
    unfold Rebalance.getRoute
    rw [hroute]
    dsimp only
    rw [if_neg hfee]
    dsimp only
    rw [hsend]

/-- Witness for C9 on `gPair` with a high fee ceiling and a timing-out
`SendPay`: the timeout is returned verbatim and the dispatch flag is set. -/
theorem claim_c9_witness :
    Rebalance.tryRoute ⟨0, baseChan 7 0 1 0, baseChan 8 2 0 0, 1000, 999999⟩
      gPair 20 (.ok 5) (fun _ _ => .error .timeout) =
      (.error .SendPayTimeout, true) :=
  (claim_c9_sendpay_outcomes
      ⟨0, baseChan 7 0 1 0, baseChan 8 2 0 0, 1000, 999999⟩
      gPair 20 5 (.ok 5) (fun _ _ => .error .timeout)
      (NewRoute 1 2 1000 [⟨baseChan 1 1 2 10, 1000, 0⟩])
      rfl (by decide) (by decide)).1 rfl

/-- C7: a listing record whose composite identifier (scid + direction) is
absent from the channels map makes the refresh step create that directed
channel with initial liquidity exactly half of its capacity in
millisatoshi.  The capacity hypothesis confines the statement to
capacities below `2^53` msat, where Go's
`uint64(0.5 * float64(c.Satoshis*1000))` is exactly half the capacity;
above that the float64 rounding departs from exact halving. -/
theorem claim_c7_created_half (g : Graph) (c : ListChannel) (aging : Nat)
    (habs : alookup (chanKey c.ShortChannelId c.Source c.Destination)
      g.Channels = none)
    (_hcap : capMsat c < 2 ^ 53) :
    (refreshOne g c aging).bind
      (fun g' => (alookup (chanKey c.ShortChannelId c.Source c.Destination)
        g'.Channels).map Channel.Liquidity) = some (capMsat c / 2) := by
  simp only [refreshOne]
  rw [habs]
  dsimp only [Option.bind]
  rw [alookup_cons, if_pos rfl]
  rfl

/-- Witness for C7: the first refresh observing the 1000-sat channel
creates the 1→2 direction with liquidity 1,000,000 / 2 msat. -/
theorem claim_c7_witness :
    (refreshOne gEmpty rec21 10000000).bind
      (fun g' => (alookup (chanKey 1 2 1) g'.Channels).map
        Channel.Liquidity) = some (capMsat rec21 / 2) :=
  claim_c7_created_half gEmpty rec21 10000000 (by decide) (by decide)

/-- C10: the aging branch of the refresh step writes through the
opposite-direction map entry, so the embedded step reaches the Go
nil-pointer panic (the `none` outcome) exactly when the record's own
identifier is present but the opposite direction's identifier is absent;
the update therefore carries the precondition that both directional
instances exist, and under the total embedding the opposite lookup must be
`some` for the panic branch to be unreachable. -/
theorem claim_c10_opposite_required (g : Graph) (c : ListChannel)
    (aging : Nat) :
    refreshOne g c aging = none ↔
      ((alookup (chanKey c.ShortChannelId c.Source c.Destination)
        g.Channels).isSome = true ∧
       alookup (chanKey c.ShortChannelId c.Destination c.Source)
        g.Channels = none) := by
  simp only [refreshOne]
  cases h1 : alookup (chanKey c.ShortChannelId c.Source c.Destination)
      g.Channels with
  | none => simp
  | some existing =>
    cases h2 : alookup (chanKey c.ShortChannelId c.Destination c.Source)
        g.Channels with
    | none => simp
    | some opp => simp

end Circular
